import Mathlib

/-!
Verification of the `drop-check` owning-pointer library (`src/lib.rs`).

The Rust source defines:
* `Boks<T>` — an owning box built from `NonNull<T>` plus `PhantomData<T>`;
  `Boks::ne` boxes a value with `Box::into_raw`, `Drop` (with
  `#[may_dangle] T`) frees the storage via `Box::from_raw`, and
  `Deref`/`DerefMut` read and write through the pointer.
* `Oisann<T: Debug>` — a wrapper whose destructor prints its contents.
* `Empty<T>` — an iterator over `PhantomData<fn() -> T>` whose `next`
  always returns `None`.

We embed the runtime behaviour shallowly: the heap is an explicit state
(allocation counter, free counter, association list of live cells), each
operation is a pure state transition, and destructor side effects are
event traces.  Rust's variance computation for the struct declarations is
embedded as a small lattice calculation over the fields' variances.
-/

namespace DropCheck

/-- An observable runtime event: allocator traffic, debug printing, and
reads/writes through a handle. -/
inductive Event where
  | alloc (a : Nat)
  | dealloc (a : Nat)
  | print (s : String)
  | readv (a : Nat)
  | writev (a : Nat)
deriving DecidableEq, Repr

/-- The heap: a fresh-address counter (addresses start at 1, so `0` is the
null address that `NonNull` excludes), the live cells as an association
list, and instrumentation counters for allocations and deallocations. -/
structure Heap (α : Type) where
  next : Nat
  store : List (Nat × α)
  allocs : Nat
  frees : Nat
deriving DecidableEq, Repr

/-- The empty instrumented heap; `Box::into_raw` never yields address 0. -/
def Heap.empty (α : Type) : Heap α := ⟨1, [], 0, 0⟩

/-- Well-formedness: fresh addresses are nonzero and strictly above every
live cell's address. -/
def Heap.wf (h : Heap α) : Prop :=
  1 ≤ h.next ∧ ∀ q ∈ h.store, 0 < q.1 ∧ q.1 < h.next

/-- Read the cell at address `a`, if live. -/
def Heap.lookup (h : Heap α) (a : Nat) : Option α :=
  (h.store.find? (fun q => q.1 == a)).map (fun q => q.2)

/-- Release the cell at address `a` and count one deallocation
(`Box::from_raw` dropped at the end of `Boks::drop`). -/
def Heap.free (h : Heap α) (a : Nat) : Heap α :=
  { h with store := h.store.filter (fun q => q.1 != a), frees := h.frees + 1 }

/-- `Boks<T>`: the `NonNull<T>` handle, i.e. the address of the owned
cell.  The `PhantomData<T>` field is zero-sized and carries no runtime
data, so the runtime state is the address alone. -/
structure Boks (α : Type) where
  p : Nat
deriving DecidableEq, Repr

/-- `Boks::ne`: `Box::new(t)` allocates a fresh cell holding `t`,
`Box::into_raw` hands out its (nonzero) address, and
`NonNull::new_unchecked` wraps it.  Total: allocation failure aborts the
process and is not a value. -/
def Boks.ne (v : α) (h : Heap α) : Boks α × Heap α :=
  (⟨h.next⟩,
   { next := h.next + 1
     store := (h.next, v) :: h.store
     allocs := h.allocs + 1
     frees := h.frees })

/-- `Deref for Boks`: read the owned cell through the handle. -/
def Boks.deref (b : Boks α) (h : Heap α) : Option α :=
  h.lookup b.p

/-- `DerefMut for Boks`: write the owned cell through the handle. -/
def Boks.write (b : Boks α) (v : α) (h : Heap α) : Heap α :=
  { h with store := h.store.map (fun q => if q.1 == b.p then (q.1, v) else q) }

/-- `Drop for Boks`, heap effect only: `Box::from_raw(self.p.as_ptr())`
reconstitutes the owning box and drops it, releasing the storage.  The
transition depends only on the address, never on the stored value. -/
def Boks.drop (b : Boks α) (h : Heap α) : Heap α :=
  h.free b.p

/-- `Drop for Boks`, with the event trace.  Dropping the reconstituted
`Box` first runs the contained value's own drop glue `g` (its effects on
the stored value), then deallocates.  The box's own code contributes only
the deallocation event. -/
def Boks.dropTrace (g : α → List Event) (b : Boks α) (h : Heap α) :
    List Event × Heap α :=
  match h.lookup b.p with
  | some v => (g v ++ [Event.dealloc b.p], h.free b.p)
  | none => ([], h)

/-- The full construct-then-drop lifetime of one box: one allocation
event, then the drop trace. -/
def boksLifetime (g : α → List Event) (v : α) (h : Heap α) :
    List Event × Heap α :=
  let r := Boks.ne v h
  let d := Boks.dropTrace g r.1 r.2
  (Event.alloc r.1.p :: d.1, d.2)

/-- Drop glue of a type with no `Drop` impl and no droppable contents
(such as `i32`): no events. -/
def trivialGlue (_ : α) : List Event := []

/-- `Drop for Oisann`: `println!` of the contained value's debug
rendering — the destructor reads its contents. -/
def oisannGlue (debugFmt : α → String) (v : α) : List Event :=
  [Event.print (debugFmt v)]

/-- One `Boks::ne` / `Drop` cycle, heap effect only. -/
def cycle (v : α) (h : Heap α) : Heap α :=
  let r := Boks.ne v h
  Boks.drop r.1 r.2

/-- `n` consecutive construct/destroy cycles. -/
def cycles (v : α) : Nat → Heap α → Heap α
  | 0, h => h
  | n + 1, h => cycles v n (cycle v h)

/-- `Empty<T>`: `PhantomData<fn() -> T>` is zero-sized, so the iterator
state carries no data. -/
structure Empty (α : Type) where
deriving DecidableEq, Repr

/-- `Iterator for Empty`: `next` returns `None` and leaves the iterator
unchanged. -/
def Empty.next (e : Empty α) : Option α × Empty α :=
  (none, e)

/-- The result of the `n`-th `next` call (0-indexed), threading the
iterator state through the earlier calls. -/
def Empty.nthNext (e : Empty α) : Nat → Option α
  | 0 => (Empty.next e).1
  | n + 1 => Empty.nthNext (Empty.next e).2 n

/-! ### Variance

Rust computes a struct's variance in a type parameter by combining the
variances of all field uses of that parameter, in the lattice whose top
is bivariance and whose bottom is invariance. -/

/-- Variance of a type constructor in one parameter. -/
inductive Variance where
  | covariant
  | contravariant
  | invariant
  | bivariant
deriving DecidableEq, Repr

/-- Greatest lower bound in the variance lattice: two uses of the same
parameter combine to the most restrictive variance. -/
def Variance.glb : Variance → Variance → Variance
  | .bivariant, v => v
  | v, .bivariant => v
  | .covariant, .covariant => .covariant
  | .contravariant, .contravariant => .contravariant
  | _, _ => .invariant

/-- A struct's variance in `T`: the glb over its fields' uses of `T`
(a parameter with no use is bivariant). -/
def structVariance (fields : List Variance) : Variance :=
  fields.foldl Variance.glb .bivariant

/-- `NonNull<U>` is covariant in `U` (its documented contract). -/
def nonNullVariance : Variance := .covariant

/-- `PhantomData<U>` is covariant in `U`. -/
def phantomDataVariance : Variance := .covariant

/-- `*mut U` is invariant in `U`. -/
def rawMutPtrVariance : Variance := .invariant

/-- `fn() -> U` is covariant in `U` (return position). -/
def fnRetVariance : Variance := .covariant

/-- The fields of `Boks<T>` as uses of `T`: `p: NonNull<T>` and
`phantom: PhantomData<T>`. -/
def boksFieldVariances : List Variance :=
  [nonNullVariance, phantomDataVariance]

/-- Variance of `Boks<T>` in `T`. -/
def boksVariance : Variance := structVariance boksFieldVariances

/-- The fields of the hypothetical `Boks` built from a plain `*mut T`
(the comparison the test `boks_without_non_null_is_invariant` is about). -/
def rawBoksFieldVariances : List Variance :=
  [rawMutPtrVariance, phantomDataVariance]

/-- Variance of the `*mut T` variant of the box. -/
def rawBoksVariance : Variance := structVariance rawBoksFieldVariances

/-- Reference types `&'l str`, identified by their lifetime; larger
lifetimes outlive smaller ones (`'static` is arbitrarily large). -/
def refSub (long short : Nat) : Bool :=
  short ≤ long

/-- Substitutability of `C<&'l1 str>` for `C<&'l2 str>` induced by `C`'s
variance in its parameter. -/
def containerSub (v : Variance) (l1 l2 : Nat) : Bool :=
  match v with
  | .covariant => refSub l1 l2
  | .contravariant => refSub l2 l1
  | .invariant => l1 == l2
  | .bivariant => true

/-! ### Helper lemmas -/

/-- Writing through the handle at `p` and then filtering away key `p`
gives the same store as filtering directly: the release step is blind to
the stored value. -/
theorem filter_ne_map_write (p : Nat) (v : α) (l : List (Nat × α)) :
    (l.map (fun q => if q.1 == p then (q.1, v) else q)).filter
        (fun q => q.1 != p)
      = l.filter (fun q => q.1 != p) := by
  induction l with
  | nil => rfl
  | cons q l ih =>
    by_cases hq : q.1 = p <;> simp [hq] <;> simpa using ih

/-- Looking up key `p` in a store first written through at `p` finds the
written value exactly when the key was live. -/
theorem find?_map_write (p : Nat) (v : α) (l : List (Nat × α)) :
    (l.map (fun q => if q.1 == p then (q.1, v) else q)).find?
        (fun q => q.1 == p)
      = (l.find? (fun q => q.1 == p)).map (fun q => (q.1, v)) := by
  induction l with
  | nil => rfl
  | cons q l ih =>
    by_cases hq : q.1 = p
    · simp [hq]
    · simp [hq]
      simpa using ih

/-- After filtering away key `a`, no lookup of `a` succeeds. -/
theorem find?_filter_ne (a : Nat) (l : List (Nat × α)) :
    (l.filter (fun q => q.1 != a)).find? (fun q => q.1 == a) = none := by
  rw [List.find?_eq_none]
  intro q hq
  have hm := (List.mem_filter.mp hq).2
  simpa using hm

/-- A well-formed heap's store never mentions the fresh address, so one
construct/destroy cycle restores the store and bumps both counters. -/
theorem cycle_eq (v : α) (h : Heap α) (hwf : h.wf) :
    cycle v h =
      { next := h.next + 1
        store := h.store
        allocs := h.allocs + 1
        frees := h.frees + 1 } := by
  obtain ⟨-, hstore⟩ := hwf
  simp only [cycle, Boks.ne, Boks.drop, Heap.free]
  have hfix : ∀ q ∈ h.store, (q.1 != h.next) = true := by
    intro q hq
    have := (hstore q hq).2
    simpa using Nat.ne_of_lt this
  simp [List.filter_cons, List.filter_eq_self.mpr hfix]

/-- Construction preserves heap well-formedness. -/
theorem ne_wf (v : α) (h : Heap α) (hwf : h.wf) : (Boks.ne v h).2.wf := by
  obtain ⟨hn, hstore⟩ := hwf
  simp only [Heap.wf, Boks.ne, List.mem_cons]
  refine ⟨by omega, ?_⟩
  intro q hq
  rcases hq with hq | hq
  · subst hq
    exact ⟨by omega, by omega⟩
  · have := hstore q hq
    exact ⟨this.1, by omega⟩

/-- Reading a freshly constructed box yields the boxed value. -/
theorem deref_ne (v : α) (h : Heap α) :
    Boks.deref (Boks.ne v h).1 (Boks.ne v h).2 = some v := by
  simp [Boks.deref, Boks.ne, Heap.lookup]

/-! ### Claim theorems -/

/-- C4: for every value `v`, constructing a box from `v` and then
dereferencing it (before release) yields exactly `v`. -/
theorem spec_c4 (v : α) (h : Heap α) :
    Boks.deref (Boks.ne v h).1 (Boks.ne v h).2 = some v :=
  deref_ne v h

/-- C7: every call to `next` on the empty sequence producer — the 0th,
1st, or any later one — returns `none`, never a value. -/
theorem spec_c7 (e : Empty α) (n : Nat) : e.nthNext n = none := by
  induction n generalizing e with
  | zero => rfl
  | succ n ih => exact ih _

/-- C8: construction always succeeds (it is a total function) and the
resulting handle is never the null sentinel `0`; well-formedness of the
heap — all addresses nonzero — is preserved. -/
theorem spec_c8 (v : α) (h : Heap α) (hwf : h.wf) :
    (Boks.ne v h).1.p ≠ 0 ∧ (Boks.ne v h).2.wf := by
  refine ⟨?_, ne_wf v h hwf⟩
  have h1 := hwf.1
  simp only [Boks.ne]
  omega

/-- Witness for C8 at `v = 42` on the empty heap. -/
theorem spec_c8_witness :
    (Boks.ne 42 (Heap.empty Nat)).1.p ≠ 0 ∧ (Boks.ne 42 (Heap.empty Nat)).2.wf :=
  spec_c8 42 (Heap.empty Nat) (by constructor <;> simp [Heap.empty])

/-- C2: `Boks` (fields `NonNull<T>` and `PhantomData<T>`) is covariant in
`T`, so whenever a longer-lived reference type is substitutable for a
shorter-lived one, a box of the former is substitutable for a box of the
latter. -/
theorem spec_c2 (long short : Nat) (hsub : refSub long short = true) :
    boksVariance = Variance.covariant
      ∧ containerSub boksVariance long short = true := by
  exact ⟨rfl, hsub⟩

/-- Witness for C2: a box of a lifetime-5 reference may be assigned where
a box of a lifetime-3 reference is expected. -/
theorem spec_c2_witness :
    boksVariance = Variance.covariant
      ∧ containerSub boksVariance 5 3 = true :=
  spec_c2 5 3 (by decide)

/-- C10: the shared and exclusive accessors address the same storage
cell, so a read through `Deref` after a write through `DerefMut` observes
the written value. -/
theorem spec_c10 (b : Boks α) (v : α) (h : Heap α)
    (hl : (Boks.deref b h).isSome = true) :
    Boks.deref b (Boks.write b v h) = some v := by
  simp only [Boks.deref, Boks.write, Heap.lookup] at hl ⊢
  rw [find?_map_write]
  cases hfind : h.store.find? (fun q => q.1 == b.p) with
  | none => rw [hfind] at hl; simp at hl
  | some q => simp

/-- Witness for C10: writing `7` over a live cell holding `42` and
reading it back yields `7`. -/
theorem spec_c10_witness :
    Boks.deref (⟨1⟩ : Boks Nat) (Boks.write ⟨1⟩ 7 ⟨2, [(1, 42)], 1, 0⟩) = some 7 :=
  spec_c10 ⟨1⟩ 7 ⟨2, [(1, 42)], 1, 0⟩ (by decide)

/-- C1: the box's own release step neither reads nor writes the contained
value: every event of the drop trace is either an effect of the value's
own drop glue or the single deallocation, and the heap transition of the
release is oblivious to the stored value (overwriting it first changes
nothing). -/
theorem spec_c1 (g : α → List Event) (b : Boks α) (h : Heap α) (v : α)
    (e : Event) (he : e ∈ (Boks.dropTrace g b h).1) :
    ((∃ u, h.lookup b.p = some u ∧ e ∈ g u) ∨ e = Event.dealloc b.p)
      ∧ Boks.drop b (Boks.write b v h) = Boks.drop b h := by
  constructor
  · cases hl : h.lookup b.p with
    | none =>
      simp [Boks.dropTrace, hl] at he
    | some u =>
      simp only [Boks.dropTrace, hl, List.mem_append, List.mem_singleton] at he
      rcases he with he | he
      · exact .inl ⟨u, rfl, he⟩
      · exact .inr he
  · simp only [Boks.drop, Boks.write, Heap.free]
    rw [filter_ne_map_write]

/-- Witness for C1: a concrete drop of a box over a cell holding `42`,
with a glue that prints, and a concrete overwrite by `7`. -/
theorem spec_c1_witness :
    ((∃ u, Heap.lookup (⟨2, [(1, 42)], 1, 0⟩ : Heap Nat) 1 = some u
        ∧ Event.print "42" ∈ (fun _ : Nat => [Event.print "42"]) u)
      ∨ Event.print "42" = Event.dealloc 1)
    ∧ Boks.drop (⟨1⟩ : Boks Nat) (Boks.write ⟨1⟩ 7 ⟨2, [(1, 42)], 1, 0⟩)
        = Boks.drop (⟨1⟩ : Boks Nat) ⟨2, [(1, 42)], 1, 0⟩ :=
  spec_c1 (fun _ => [Event.print "42"]) ⟨1⟩ ⟨2, [(1, 42)], 1, 0⟩ 7
    (Event.print "42") (by decide)

/-- C3: across any number of construct/destroy cycles on a well-formed
heap, the allocation count and the deallocation count each grow by
exactly the number of cycles (so they balance), the set of live cells is
restored (no leak), and each box's storage is live with its value right
up to its own release (no double free). -/
theorem spec_c3 (v : α) (n : Nat) (h : Heap α) (hwf : h.wf) :
    (cycles v n h).allocs = h.allocs + n
      ∧ (cycles v n h).frees = h.frees + n
      ∧ (cycles v n h).store = h.store
      ∧ Boks.deref (Boks.ne v h).1 (Boks.ne v h).2 = some v := by
  induction n generalizing h with
  | zero => exact ⟨rfl, rfl, rfl, deref_ne v h⟩
  | succ n ih =>
    have hc := cycle_eq v h hwf
    have hwf2 : (cycle v h).wf := by
      rw [hc]
      constructor
      · show 1 ≤ h.next + 1
        omega
      · intro q hq
        have h2 := hwf.2 q (by simpa using hq)
        refine ⟨h2.1, ?_⟩
        show q.1 < h.next + 1
        have := h2.2
        omega
    obtain ⟨ha, hf, hs, -⟩ := ih (cycle v h) hwf2
    refine ⟨?_, ?_, ?_, deref_ne v h⟩
    · show (cycles v n (cycle v h)).allocs = h.allocs + (n + 1)
      rw [ha, hc]
      show h.allocs + 1 + n = h.allocs + (n + 1)
      omega
    · show (cycles v n (cycle v h)).frees = h.frees + (n + 1)
      rw [hf, hc]
      show h.frees + 1 + n = h.frees + (n + 1)
      omega
    · show (cycles v n (cycle v h)).store = h.store
      rw [hs, hc]

/-- Witness for C3: three cycles on the empty heap produce three
allocations and three deallocations and leave the store empty. -/
theorem spec_c3_witness :
    (cycles 0 3 (Heap.empty Nat)).allocs = (Heap.empty Nat).allocs + 3
      ∧ (cycles 0 3 (Heap.empty Nat)).frees = (Heap.empty Nat).frees + 3
      ∧ (cycles 0 3 (Heap.empty Nat)).store = (Heap.empty Nat).store
      ∧ Boks.deref (Boks.ne 0 (Heap.empty Nat)).1 (Boks.ne 0 (Heap.empty Nat)).2
          = some 0 :=
  spec_c3 0 3 (Heap.empty Nat) (by constructor <;> simp [Heap.empty])

/-- C5: when a box contains the debug-on-drop wrapper, the whole lifetime
trace performs the debug print exactly once, and the print occurs before
the deallocation of the box's storage. -/
theorem spec_c5 (debugFmt : α → String) (v : α) (h : Heap α) :
    (boksLifetime (oisannGlue debugFmt) v h).1.count
        (Event.print (debugFmt v)) = 1
      ∧ ∃ pre mid post,
          (boksLifetime (oisannGlue debugFmt) v h).1
            = pre ++ Event.print (debugFmt v) :: mid
                ++ Event.dealloc h.next :: post := by
  have ht : (boksLifetime (oisannGlue debugFmt) v h).1
      = [Event.alloc h.next, Event.print (debugFmt v), Event.dealloc h.next] := by
    simp [boksLifetime, Boks.ne, Boks.dropTrace, Heap.lookup, oisannGlue]
  refine ⟨?_, [Event.alloc h.next], [], [], ?_⟩
  · rw [ht]
    simp [List.count_cons]
  · rw [ht]
    simp

/-- C6: over the whole lifetime of one box, the events beyond the
contained value's own destructor effects are exactly one allocation and
one deallocation — per-event, the lifetime trace counts each event as the
glue does, plus the single alloc/dealloc pair. -/
theorem spec_c6 (g : α → List Event) (v : α) (h : Heap α) (e : Event) :
    (boksLifetime g v h).1 = Event.alloc h.next :: (g v ++ [Event.dealloc h.next])
      ∧ (boksLifetime g v h).1.count e
          = (g v).count e
            + ([Event.alloc h.next, Event.dealloc h.next] : List Event).count e := by
  have ht : (boksLifetime g v h).1
      = Event.alloc h.next :: (g v ++ [Event.dealloc h.next]) := by
    simp [boksLifetime, Boks.ne, Boks.dropTrace, Heap.lookup]
  refine ⟨ht, ?_⟩
  rw [ht]
  simp [List.count_cons, List.count_append]
  omega

/-- C9: the box's release runs the contained value's drop glue — its
effects appear exactly once, all before the deallocation — and afterwards
the cell is gone from the heap (the value is destroyed, not leaked). -/
theorem spec_c9 (g : α → List Event) (v : α) (h : Heap α) (e : Event) :
    (Boks.dropTrace g (Boks.ne v h).1 (Boks.ne v h).2).1
        = g v ++ [Event.dealloc h.next]
      ∧ (Boks.dropTrace g (Boks.ne v h).1 (Boks.ne v h).2).1.count e
          = (g v).count e + ([Event.dealloc h.next] : List Event).count e
      ∧ Boks.deref (Boks.ne v h).1
          (Boks.dropTrace g (Boks.ne v h).1 (Boks.ne v h).2).2 = none := by
  have ht : (Boks.dropTrace g (Boks.ne v h).1 (Boks.ne v h).2).1
      = g v ++ [Event.dealloc h.next] := by
    simp [Boks.dropTrace, Boks.ne, Heap.lookup]
  refine ⟨ht, ?_, ?_⟩
  · rw [ht]
    simp [List.count_append]
  · simp [Boks.dropTrace, Boks.ne, Boks.deref, Heap.lookup, Heap.free,
      find?_filter_ne]

end DropCheck
